import Mathlib

/-!
Verification of the slide-rendering and export pipeline of the
"Gerador de Carrosséis" application (src/App.tsx, src/types.ts).

The TypeScript source is shallowly embedded: pure helpers
(`getColorPalette`, `getFontDetails`, `wrapText`, the font-shrinking loop
of `renderSlideToBlob`) become Lean functions; the canvas 2D context is
modelled by an abstract text-measuring function and by a list of drawing
operations; the image-generation collaborator and the per-language
typography catalog (imported from `constants.ts` / `services/geminiService.ts`)
are parameters.
-/

namespace App

/-- `Language` from src/types.ts. -/
inductive Language
  | pt
  | en
  | es
deriving DecidableEq, Repr

/-- The `tipo` field of a slide (`'capa' | 'conteudo' | 'cta'` in src/types.ts). -/
inductive TipoSlide
  | capa
  | conteudo
  | cta
deriving DecidableEq, Repr

/-- `Slide` from src/types.ts. -/
structure Slide where
  ordem : Nat
  tipo : TipoSlide
  frase : String
  instrucoes_layout : String
  prompt_imagem : String
deriving DecidableEq, Repr

/-- `Carousel` from src/types.ts (optional fields are `Option`s). -/
structure Carousel where
  id : String
  nicho : Option String := none
  contexto : Option String := none
  estilo_fundo : Option String := none
  paleta_cores : Option String := none
  tipografia : Option String := none
  cta_no_ultimo_slide : Option Bool := none
  slides : List Slide
deriving DecidableEq, Repr

/-- A decoded background bitmap (an `HTMLImageElement` that finished loading);
only its source URI is observable in the model. -/
structure Image where
  src : String
deriving DecidableEq, Repr

/-- JavaScript `String.prototype.includes`: `containsSub s pat` is true iff
`pat` occurs contiguously inside `s` (case-sensitive). -/
def containsSub (s pat : String) : Bool :=
  decide (pat.data <:+: s.data)

/-- The `{bg, text}` record returned by `getColorPalette` (src/App.tsx:396-402). -/
structure Palette where
  bg : String
  text : String
deriving DecidableEq, Repr

/-- `getColorPalette` (src/App.tsx:396-402): substring matching on the
palette token; callers pass `carousel.paleta_cores ?? ''`. -/
def getColorPalette (paletteName : String) : Palette :=
  if containsSub paletteName "Escuro" || containsSub paletteName "Dark" then
    { bg := "#1A1A1A", text := "#E0E0E0" }
  else if containsSub paletteName "Vibrante" || containsSub paletteName "Vibrant" then
    { bg := "linear-gradient(135deg, #4F46E5, #9333EA)", text := "#FFFFFF" }
  else if containsSub paletteName "Neutro" || containsSub paletteName "Neutral" then
    { bg := "#E5E7EB", text := "#111827" }
  else
    { bg := "#F3EAD3", text := "#3A3A3A" }

/-- The CSS `text-transform` values used by `getFontDetails`. -/
inductive TextTransform
  | noTransform
  | uppercase
deriving DecidableEq, Repr

/-- The style record returned by `getFontDetails` (src/App.tsx:376-394). -/
structure FontDetails where
  fontFamily : String
  textTransform : TextTransform
  fontWeight : String
deriving DecidableEq, Repr

/-- The default font triple of `getFontDetails` (src/App.tsx:377). -/
def defaultFont : FontDetails :=
  { fontFamily := "\x27Montserrat\x27, sans-serif"
    textTransform := TextTransform.noTransform
    fontWeight := "700" }

/-- One entry of `STYLE_OPTIONS.typography[lang]` (a named font option of the
per-language catalog defined in `constants.ts`, which only `value` and
`fontFamily` of are consulted by src/App.tsx). -/
structure FontOption where
  name : String
  value : String
  fontFamily : String
deriving DecidableEq, Repr

/-- `getFontDetails` (src/App.tsx:376-394). The per-language catalog
`STYLE_OPTIONS.typography` lives in `constants.ts` and is passed here as the
`catalog` parameter; an unmatched token falls back to `defaultFont`. -/
def getFontDetails (catalog : Language → List FontOption) (typographyName : String)
    (lang : Language) : FontDetails :=
  match (catalog lang).find? (fun f => f.value == typographyName) with
  | none => defaultFont
  | some fontOption =>
    let details : FontDetails := { defaultFont with fontFamily := fontOption.fontFamily }
    if containsSub fontOption.value "Caixa alta" || containsSub fontOption.value "Uppercase"
        || containsSub fontOption.value "Mayúsculas" then
      { details with textTransform := TextTransform.uppercase }
    else
      details

/-- Helper for `splitWords`: splits a character list at every space,
keeping empty components, exactly like JavaScript `split(' ')`. -/
def splitChars : List Char → List (List Char)
  | [] => [[]]
  | c :: cs =>
    match splitChars cs with
    | [] => []
    | w :: ws => if c = ' ' then [] :: w :: ws else (c :: w) :: ws

/-- JavaScript `text.split(' ')` (src/App.tsx:405): the list of space-separated
components of `text`; always non-empty, and empty components are kept. -/
def splitWords (text : String) : List String :=
  (splitChars text.data).map (fun w => String.mk w)

/-- The committed line string built from a group of words, each word followed
by the space that `wrapText`'s accumulator appends after it. -/
def renderLine : List String → String
  | [] => ""
  | w :: ws => w ++ " " ++ renderLine ws

/-- The `for` loop of `wrapText` (src/App.tsx:409-421): `line` is the current
accumulated line, `acc` the lines already committed by `fillText`, `n` the
word index. The committed lines are returned in drawing order. -/
def wrapLoop (m : String → Nat) (maxWidth : Nat) :
    List String → Nat → String → List String → List String
  | [], _, line, acc => acc ++ [line]
  | w :: ws, n, line, acc =>
    let testLine := line ++ w ++ " "
    if maxWidth < m testLine ∧ 0 < n then
      wrapLoop m maxWidth ws (n + 1) (w ++ " ") (acc ++ [line])
    else
      wrapLoop m maxWidth ws (n + 1) testLine acc

/-- `wrapText`'s loop run on an explicit word list. -/
def wrapWords (m : String → Nat) (maxWidth : Nat) (words : List String) : List String :=
  wrapLoop m maxWidth words 0 "" []

/-- `wrapText` (src/App.tsx:404-425), as the list of line strings passed to
`context.fillText`, in drawing order. `m` models `context.measureText` under
the active font; the `x`, `y` and `lineHeight` arguments of the source only
position the draw calls and do not influence the produced lines. The source
returns the line count, which is the length of this list. -/
def wrapText (m : String → Nat) (text : String) (maxWidth : Nat) : List String :=
  wrapWords m maxWidth (splitWords text)

/-- `wrapLoop` with the current line and committed lines represented as word
groups instead of strings; used to state and prove the greedy-wrap facts. -/
def wrapGroupsLoop (m : String → Nat) (maxWidth : Nat) :
    List String → Nat → List String → List (List String) → List (List String)
  | [], _, g, acc => acc ++ [g]
  | w :: ws, n, g, acc =>
    if maxWidth < m (renderLine g ++ w ++ " ") ∧ 0 < n then
      wrapGroupsLoop m maxWidth ws (n + 1) [w] (acc ++ [g])
    else
      wrapGroupsLoop m maxWidth ws (n + 1) (g ++ [w]) acc

/-- Word-group version of `wrapWords`. -/
def wrapGroups (m : String → Nat) (maxWidth : Nat) (words : List String) :
    List (List String) :=
  wrapGroupsLoop m maxWidth words 0 [] []

theorem renderLine_concat (g : List String) (w : String) :
    renderLine (g ++ [w]) = renderLine g ++ w ++ " " := by
  induction g with
  | nil => simp [renderLine]
  | cons a g ih => simp [renderLine, ih, String.append_assoc]

theorem renderLine_append (g₁ g₂ : List String) :
    renderLine (g₁ ++ g₂) = renderLine g₁ ++ renderLine g₂ := by
  induction g₁ with
  | nil => simp [renderLine]
  | cons a g ih => simp [renderLine, ih, String.append_assoc]

theorem wrapLoop_eq_groups (m : String → Nat) (W : Nat) :
    ∀ (ws : List String) (n : Nat) (g : List String) (acc : List (List String)),
      wrapLoop m W ws n (renderLine g) (acc.map renderLine) =
        (wrapGroupsLoop m W ws n g acc).map renderLine := by
  intro ws
  induction ws with
  | nil => intro n g acc; simp [wrapLoop, wrapGroupsLoop]
  | cons w ws ih =>
    intro n g acc
    simp only [wrapLoop, wrapGroupsLoop]
    split
    · have h1 : w ++ " " = renderLine [w] := by simp [renderLine]
      have h2 : acc.map renderLine ++ [renderLine g] = ((acc ++ [g]).map renderLine) := by
        simp
      rw [h1, h2, ih]
    · have h3 : renderLine g ++ w ++ " " = renderLine (g ++ [w]) := (renderLine_concat g w).symm
      rw [h3, ih]

theorem wrapWords_eq_groups (m : String → Nat) (W : Nat) (words : List String) :
    wrapWords m W words = (wrapGroups m W words).map renderLine := by
  have := wrapLoop_eq_groups m W words 0 [] []
  simpa [wrapWords, wrapGroups, renderLine] using this

theorem wrapText_eq_groups (m : String → Nat) (W : Nat) (text : String) :
    wrapText m text W = (wrapGroups m W (splitWords text)).map renderLine :=
  wrapWords_eq_groups m W (splitWords text)

theorem wrapGroupsLoop_spec (m : String → Nat) (W : Nat) :
    ∀ (ws : List String) (g : List String) (acc : List (List String)) (n : Nat),
      (n = 0 → g = []) → (g = [] → acc = []) →
      List.Chain' (fun a b => W < m (renderLine a ++ b.headI ++ " ")) (acc ++ [g]) →
      (∀ h ∈ acc ++ [g], 2 ≤ h.length → m (renderLine h) ≤ W) →
      List.Chain' (fun a b => W < m (renderLine a ++ b.headI ++ " "))
          (wrapGroupsLoop m W ws n g acc) ∧
        (∀ h ∈ wrapGroupsLoop m W ws n g acc, 2 ≤ h.length → m (renderLine h) ≤ W) ∧
        (wrapGroupsLoop m W ws n g acc).flatten = (acc ++ [g]).flatten ++ ws := by
  intro ws
  induction ws with
  | nil =>
    intro g acc n _ _ hchain hfit
    refine ⟨hchain, hfit, by simp [wrapGroupsLoop]⟩
  | cons w ws ih =>
    intro g acc n hn0 hga hchain hfit
    simp only [wrapGroupsLoop]
    split
    · rename_i hc
      have hedge : W < m (renderLine g ++ [w].headI ++ " ") := by
        simpa [List.headI] using hc.1
      have hchain' :
          List.Chain' (fun a b => W < m (renderLine a ++ b.headI ++ " "))
            ((acc ++ [g]) ++ [[w]]) := by
        rw [List.chain'_append]
        refine ⟨hchain, by simp, ?_⟩
        intro x hx y hy
        simp only [List.getLast?_concat, Option.mem_def, Option.some.injEq] at hx
        simp only [List.head?, Option.mem_def, Option.some.injEq] at hy
        subst hx; subst hy
        exact hedge
      have hfit' : ∀ h ∈ (acc ++ [g]) ++ [[w]], 2 ≤ h.length → m (renderLine h) ≤ W := by
        intro h hh hlen
        rcases List.mem_append.1 hh with hh | hh
        · exact hfit h hh hlen
        · simp only [List.mem_singleton] at hh
          subst hh; simp at hlen
      have := ih [w] (acc ++ [g]) (n + 1) (by simp) (by simp) hchain' hfit'
      refine ⟨this.1, this.2.1, ?_⟩
      rw [this.2.2]; simp
    · rename_i hc
      by_cases hg : g = []
      · subst hg
        have hacc : acc = [] := hga rfl
        subst hacc
        simp only [List.nil_append]
        have := ih [w] [] (n + 1) (by simp) (by simp) (by simp) ?_
        · refine ⟨this.1, this.2.1, ?_⟩
          rw [this.2.2]; simp
        · intro h hh hlen
          simp only [List.nil_append, List.mem_singleton] at hh
          subst hh; simp at hlen
      · have hn : 0 < n := by
          rcases Nat.eq_zero_or_pos n with h0 | h0
          · exact absurd (hn0 h0) hg
          · exact h0
        have hmle : m (renderLine g ++ w ++ " ") ≤ W := by
          by_contra hlt
          exact hc ⟨Nat.lt_of_not_le hlt, hn⟩
        have hchain' :
            List.Chain' (fun a b => W < m (renderLine a ++ b.headI ++ " "))
              (acc ++ [g ++ [w]]) := by
          rw [List.chain'_append] at hchain ⊢
          refine ⟨hchain.1, by simp, ?_⟩
          intro x hx y hy
          simp only [List.head?, Option.mem_def, Option.some.injEq] at hy
          subst hy
          have : W < m (renderLine x ++ g.headI ++ " ") :=
            hchain.2.2 x hx g (by simp [List.head?])
          rcases g with _ | ⟨a, g⟩
          · exact absurd rfl hg
          · simpa [List.headI] using this
        have hfit' : ∀ h ∈ acc ++ [g ++ [w]], 2 ≤ h.length → m (renderLine h) ≤ W := by
          intro h hh _
          rcases List.mem_append.1 hh with hh | hh
          · exact hfit h (List.mem_append.2 (Or.inl hh)) (by assumption)
          · simp only [List.mem_singleton] at hh
            subst hh
            rw [renderLine_concat]
            exact hmle
        have := ih (g ++ [w]) acc (n + 1) (by simp) (by simp [hg]) hchain' hfit'
        refine ⟨this.1, this.2.1, ?_⟩
        rw [this.2.2]; simp

theorem wrapGroups_spec (m : String → Nat) (W : Nat) (words : List String) :
    List.Chain' (fun a b => W < m (renderLine a ++ b.headI ++ " "))
        (wrapGroups m W words) ∧
      (∀ h ∈ wrapGroups m W words, 2 ≤ h.length → m (renderLine h) ≤ W) ∧
      (wrapGroups m W words).flatten = words := by
  have := wrapGroupsLoop_spec m W words [] [] 0 (fun _ => rfl) (fun _ => rfl)
    (by simp) (by intro h hh hlen; simp at hh; subst hh; simp at hlen)
  simp only [wrapGroups]
  refine ⟨this.1, this.2.1, ?_⟩
  rw [this.2.2]; simp

theorem overflow_word_alone (m : String → Nat) (W : Nat)
    (hm : ∀ a b : String, m a ≤ m (a ++ b) ∧ m b ≤ m (a ++ b))
    {g : List String} (hfit : 2 ≤ g.length → m (renderLine g) ≤ W)
    {w : String} (hw : w ∈ g) (hover : W < m (w ++ " ")) : g = [w] := by
  by_cases hsingle : g = [w]
  · exact hsingle
  · exfalso
    have hlen : 2 ≤ g.length := by
      rcases g with _ | ⟨a, _ | ⟨b, t⟩⟩
      · simp at hw
      · simp only [List.mem_singleton] at hw
        subst hw; exact absurd rfl hsingle
      · simp
    have hle := hfit hlen
    obtain ⟨s, t, rfl⟩ := List.append_of_mem hw
    rw [renderLine_append] at hle
    have h1 : m (renderLine (w :: t)) ≤ W :=
      le_trans (hm (renderLine s) (renderLine (w :: t))).2 hle
    have h2 : m (w ++ " ") ≤ m (renderLine (w :: t)) := by
      have := (hm (w ++ " ") (renderLine t)).1
      simpa [renderLine, String.append_assoc] using this
    exact absurd (le_trans h2 h1) (Nat.not_le.2 hover)

theorem wrapGroupsLoop_prefix_fit (m : String → Nat) (W : Nat) :
    ∀ (ws : List String) (g : List String) (acc : List (List String)) (n : Nat),
      (n = 0 → g = []) →
      (∀ p, p <+: g → 2 ≤ p.length → m (renderLine p) ≤ W) →
      (∀ h ∈ acc, ∀ p, p <+: h → 2 ≤ p.length → m (renderLine p) ≤ W) →
      ∀ h ∈ wrapGroupsLoop m W ws n g acc, ∀ p, p <+: h → 2 ≤ p.length →
        m (renderLine p) ≤ W := by
  intro ws
  induction ws with
  | nil =>
    intro g acc n _ hg hacc h hh
    simp only [wrapGroupsLoop] at hh
    rcases List.mem_append.1 hh with hh | hh
    · exact hacc h hh
    · simp only [List.mem_singleton] at hh
      subst hh
      exact hg
  | cons w ws ih =>
    intro g acc n hn0 hg hacc
    simp only [wrapGroupsLoop]
    split
    · apply ih [w] (acc ++ [g]) (n + 1) (by simp)
      · intro p hp hlen
        have hle1 := hp.length_le
        simp only [List.length_singleton] at hle1
        exact absurd hlen (by omega)
      · intro h hh
        rcases List.mem_append.1 hh with hh | hh
        · exact hacc h hh
        · simp only [List.mem_singleton] at hh
          subst hh
          exact hg
    · rename_i hc
      apply ih (g ++ [w]) acc (n + 1) (by simp)
      · intro p hp hlen
        rcases Nat.lt_or_ge g.length p.length with hlt | hge
        · have hple := hp.length_le
          have hlens : p.length = (g ++ [w]).length := by
            simp only [List.length_append, List.length_singleton] at hple ⊢
            omega
          have hpe : p = g ++ [w] := hp.eq_of_length hlens
          subst hpe
          have hgne : g ≠ [] := by
            intro hge0
            subst hge0
            simp at hlen
          have hn : 0 < n := by
            rcases Nat.eq_zero_or_pos n with h0 | h0
            · exact absurd (hn0 h0) hgne
            · exact h0
          have hmle : m (renderLine g ++ w ++ " ") ≤ W := by
            by_contra hlt'
            exact hc ⟨Nat.lt_of_not_le hlt', hn⟩
          rw [renderLine_concat]
          exact hmle
        · exact hg p (List.prefix_of_prefix_length_le hp ⟨[w], rfl⟩ hge) hlen
      · exact hacc

theorem wrapGroups_prefix_fit (m : String → Nat) (W : Nat) (words : List String) :
    ∀ h ∈ wrapGroups m W words, ∀ p, p <+: h → 2 ≤ p.length →
      m (renderLine p) ≤ W := by
  intro h hh
  refine wrapGroupsLoop_prefix_fit m W words [] [] 0 (fun _ => rfl) ?_ ?_ h
    (by simpa [wrapGroups] using hh)
  · intro p hp hlen
    have hle0 := hp.length_le
    simp only [List.length_nil] at hle0
    exact absurd hlen (by omega)
  · intro h' hh'
    simp at hh'

theorem wrapLoop_fit_prefix (m : String → Nat) (W : Nat) :
    ∀ (ws : List String) (g0 : List String) (n : Nat) (acc : List String),
      g0 ≠ [] →
      (∀ p, p <+: g0 ++ ws → 2 ≤ p.length → m (renderLine p) ≤ W) →
      wrapLoop m W ws n (renderLine g0) acc = acc ++ [renderLine (g0 ++ ws)] := by
  intro ws
  induction ws with
  | nil =>
    intro g0 n acc _ _
    simp [wrapLoop]
  | cons w ws ih =>
    intro g0 n acc hg0 hfit
    have heq : (g0 ++ [w]) ++ ws = g0 ++ w :: ws := by simp
    have htest : m (renderLine g0 ++ w ++ " ") ≤ W := by
      have hpref : (g0 ++ [w]) <+: g0 ++ w :: ws := ⟨ws, heq⟩
      have hlen2 : 2 ≤ (g0 ++ [w]).length := by
        have hpos : 0 < g0.length := List.length_pos.2 hg0
        simp only [List.length_append, List.length_singleton]
        omega
      have h := hfit (g0 ++ [w]) hpref hlen2
      rwa [renderLine_concat] at h
    simp only [wrapLoop]
    rw [if_neg (by intro hcon; exact absurd htest (Nat.not_le.2 hcon.1))]
    have h2 := ih (g0 ++ [w]) (n + 1) acc (by simp)
      (fun p hp hlen => hfit p (by rwa [heq] at hp) hlen)
    rw [renderLine_concat, heq] at h2
    exact h2

theorem wrapWords_single_line_of_prefix_fit (m : String → Nat) (W : Nat)
    (g : List String)
    (hfit : ∀ p, p <+: g → 2 ≤ p.length → m (renderLine p) ≤ W) :
    wrapWords m W g = [renderLine g] := by
  rcases g with _ | ⟨w, ws⟩
  · simp [wrapWords, wrapLoop, renderLine]
  · simp only [wrapWords, wrapLoop]
    rw [if_neg (by intro hcon; exact absurd hcon.2 (by simp))]
    have h := wrapLoop_fit_prefix m W ws [w] 1 [] (by simp)
      (fun p hp hlen => hfit p (by simpa using hp) hlen)
    have hline : "" ++ w ++ " " = renderLine [w] := by simp [renderLine]
    rw [hline]
    simpa using h

/-- C5: `wrapText` is greedy. Every run of `wrapText` partitions the words of
the input into consecutive groups, one per drawn line (`wrapText ... =
gs.map renderLine` and `gs.flatten = splitWords text`); a new line is started
exactly when appending its first word to the previous line would make the
measured width exceed `maxWidth` (the `Chain'` conjunct); any committed line
holding at least two words measures within `maxWidth` (words accumulate only
while the width does not exceed it); and for a monotone measure, a single
word measuring wider than `maxWidth` is never split: it sits alone in its own
(overflowing) line. -/
theorem wrapText_greedy (m : String → Nat) (W : Nat) (text : String) :
    ∃ gs : List (List String),
      wrapText m text W = gs.map renderLine ∧
      gs.flatten = splitWords text ∧
      List.Chain' (fun a b => W < m (renderLine a ++ b.headI ++ " ")) gs ∧
      (∀ g ∈ gs, 2 ≤ g.length → m (renderLine g) ≤ W) ∧
      ((∀ a b : String, m a ≤ m (a ++ b) ∧ m b ≤ m (a ++ b)) →
        ∀ g ∈ gs, ∀ w ∈ g, W < m (w ++ " ") → g = [w]) := by
  refine ⟨wrapGroups m W (splitWords text), wrapText_eq_groups m W text, ?_, ?_, ?_, ?_⟩
  · exact (wrapGroups_spec m W (splitWords text)).2.2
  · exact (wrapGroups_spec m W (splitWords text)).1
  · exact (wrapGroups_spec m W (splitWords text)).2.1
  · intro hm g hg w hw hover
    exact overflow_word_alone m W hm ((wrapGroups_spec m W (splitWords text)).2.1 g hg) hw hover

/-- Witness for C5 at a concrete measure (character count), width and text. -/
theorem wrapText_greedy_witness :
    ∃ gs : List (List String),
      wrapText (fun s => s.data.length) "aa bb cc" 6 = gs.map renderLine ∧
      gs.flatten = splitWords "aa bb cc" ∧
      List.Chain' (fun a b => 6 < (renderLine a ++ b.headI ++ " ").data.length) gs ∧
      (∀ g ∈ gs, 2 ≤ g.length → (renderLine g).data.length ≤ 6) ∧
      ((∀ a b : String, (a : String).data.length ≤ (a ++ b).data.length ∧
          (b : String).data.length ≤ (a ++ b).data.length) →
        ∀ g ∈ gs, ∀ w ∈ g, 6 < (w ++ " ").data.length → g = [w]) :=
  wrapText_greedy (fun s => s.data.length) 6 "aa bb cc"

/-- C6 (as stated, refuted): re-wrapping the verbatim line strings produced by
`wrapText` at the same width does NOT always reproduce the same line breaks.
Each produced line carries a trailing space, so re-splitting it yields an
extra empty word; at width 6 with a character-count measure, the single output
line of "aa bb" re-wraps into two lines. -/
theorem wrapText_rewrap_counterexample :
    ((wrapText (fun s => s.data.length) "aa bb" 6).map
        (fun L => wrapText (fun s => s.data.length) L 6)).flatten ≠
      wrapText (fun s => s.data.length) "aa bb" 6 := by
  decide

/-- C6 (amended): word-wrapping is idempotent on each produced line's words,
for every measure. The word groups of the lines produced by `wrapText` (which
partition the input's words: `gs.flatten = splitWords text`) each re-wrap, at
the same width, to that single unbroken line: every length-two-or-more prefix
of a committed group was measure-tested during the original run, so the
re-wrap never breaks. (Re-wrapping the verbatim line strings fails only
because of their trailing space, see the counterexample.) -/
theorem wrapText_rewrap_words (m : String → Nat) (W : Nat) (text : String) :
    ∃ gs : List (List String),
      wrapText m text W = gs.map renderLine ∧
      gs.flatten = splitWords text ∧
      ∀ g ∈ gs, wrapWords m W g = [renderLine g] := by
  refine ⟨wrapGroups m W (splitWords text), wrapText_eq_groups m W text,
    (wrapGroups_spec m W (splitWords text)).2.2, ?_⟩
  intro g hg
  exact wrapWords_single_line_of_prefix_fit m W g
    (wrapGroups_prefix_fit m W (splitWords text) g hg)

/-- Witness for the amended C6 at a concrete measure, width and text. -/
theorem wrapText_rewrap_words_witness :
    ∃ gs : List (List String),
      wrapText (fun s => s.data.length) "aa bb" 6 = gs.map renderLine ∧
      gs.flatten = splitWords "aa bb" ∧
      ∀ g ∈ gs, wrapWords (fun s => s.data.length) 6 g = [renderLine g] :=
  wrapText_rewrap_words (fun s => s.data.length) 6 "aa bb"

/-- The fixed square canvas size of `renderSlideToBlob` (src/App.tsx:433). -/
def canvasSize : Nat := 1080

/-- `maxTextWidth = size * 0.85` (src/App.tsx:466); exact, since
`1080 * 0.85 = 918`. -/
def maxTextWidth : Nat := canvasSize * 85 / 100

/-- The shrink threshold `maxTextWidth * 2.5` of the font-fitting loop
(src/App.tsx:469); exact, since `918 * 2.5 = 2295`. -/
def shrinkLimit : Nat := maxTextWidth * 5 / 2

/-- `baseFontSize = slide.tipo === 'capa' ? 90 : 70` (src/App.tsx:465). -/
def baseFontSize (tipo : TipoSlide) : Nat :=
  if tipo = TipoSlide.capa then 90 else 70

/-- The `while` loop of the dynamic font-size fitting (src/App.tsx:469-472),
written with an explicit iteration budget `fuel`. `measureAt f` is the
measured width of the (unwrapped) slide text with the active font at size
`f`. Each iteration requires `30 < fontSize` and lowers `fontSize` by 5, so
any `fuel ≥ fontSize` makes the recursion behave exactly like the source's
unbounded loop (`shrinkFontSize` passes `fontSize` itself, and
`fitFontSize_stop` below shows the loop indeed runs to its exit condition). -/
def shrinkLoop (measureAt : Nat → Nat) (limit : Nat) : Nat → Nat → Nat
  | 0, fontSize => fontSize
  | fuel + 1, fontSize =>
    if limit < measureAt fontSize ∧ 30 < fontSize then
      shrinkLoop measureAt limit fuel (fontSize - 5)
    else
      fontSize

/-- The font-size fitting loop of `renderSlideToBlob` (src/App.tsx:467-472). -/
def shrinkFontSize (measureAt : Nat → Nat) (limit : Nat) (fontSize : Nat) : Nat :=
  shrinkLoop measureAt limit fontSize fontSize

/-- The final font size chosen by `renderSlideToBlob` for a slide of kind
`tipo` whose display text is `text` (src/App.tsx:464-472). `measure f t`
models `ctx.measureText(t).width` under the active font at size `f`. -/
def fitFontSize (measure : Nat → String → Nat) (text : String) (tipo : TipoSlide) : Nat :=
  shrinkFontSize (fun f => measure f text) shrinkLimit (baseFontSize tipo)

/-- JavaScript `String.prototype.toUpperCase`, character by character. -/
def toUpperStr (s : String) : String :=
  String.mk (s.data.map Char.toUpper)

/-- The text drawn by `renderSlideToBlob` (src/App.tsx:456-458): the slide's
phrase, upper-cased when the resolved typography asks for it. -/
def displayText (catalog : Language → List FontOption) (carousel : Carousel)
    (language : Language) (slide : Slide) : String :=
  if (getFontDetails catalog (carousel.tipografia.getD "") language).textTransform =
      TextTransform.uppercase then
    toUpperStr slide.frase
  else
    slide.frase

/-- One canvas drawing operation issued by `renderSlideToBlob`. -/
inductive DrawOp
  | drawImage (img : Image) (x y w h : Nat)
  | fillRect (fillStyle : String) (x y w h : Nat)
  | fillGradientRect (x0 y0 x1 y1 : Nat) (stop0 stop1 : String) (x y w h : Nat)
  | fillText (fillStyle : String) (line : String)
deriving DecidableEq, Repr

/-- The background pass of `renderSlideToBlob` (src/App.tsx:437-453): a photo
background is drawn full-canvas and covered by the fixed half-black overlay;
otherwise the resolved palette paints the canvas, as the diagonal two-stop
gradient when the palette's `bg` is a `linear-gradient` spec and as a solid
fill otherwise. -/
def backgroundOps (paleta_cores : Option String) (bgImage : Option Image) : List DrawOp :=
  match bgImage with
  | some img =>
    [DrawOp.drawImage img 0 0 canvasSize canvasSize,
     DrawOp.fillRect "rgba(0, 0, 0, 0.5)" 0 0 canvasSize canvasSize]
  | none =>
    let colors := getColorPalette (paleta_cores.getD "")
    if "linear-gradient".data.isPrefixOf colors.bg.data then
      [DrawOp.fillGradientRect 0 0 canvasSize canvasSize "#4F46E5" "#9333EA"
        0 0 canvasSize canvasSize]
    else
      [DrawOp.fillRect colors.bg 0 0 canvasSize canvasSize]

/-- The observable content of the canvas produced by `renderSlideToBlob`
before `canvas.toBlob` encodes it: its dimensions, the chosen font size and
line height, and the drawing operations in issue-order. -/
structure RenderOutput where
  width : Nat
  height : Nat
  fontSize : Nat
  lineHeight : Nat
  ops : List DrawOp
deriving DecidableEq, Repr

/-- `renderSlideToBlob` (src/App.tsx:427-480). `hasCtx` models whether
`canvas.getContext('2d')` returned a context: without one the promise
resolves `null` (line 431). `measure f t` models `ctx.measureText(t).width`
at font size `f`; the PNG encoding of `canvas.toBlob` is external, so the
blob is modelled by the canvas content that is encoded
(`lineHeight = fontSize * 1.2` is exact: the font size is a multiple of 5). -/
def renderSlideToBlob (measure : Nat → String → Nat)
    (catalog : Language → List FontOption) (hasCtx : Bool) (slide : Slide)
    (carousel : Carousel) (language : Language) (bgImage : Option Image) :
    Option RenderOutput :=
  if hasCtx then
    let text := displayText catalog carousel language slide
    let textColor := (getColorPalette (carousel.paleta_cores.getD "")).text
    let fontSize := fitFontSize measure text slide.tipo
    some
      { width := canvasSize
        height := canvasSize
        fontSize := fontSize
        lineHeight := fontSize * 12 / 10
        ops := backgroundOps carousel.paleta_cores bgImage ++
          (wrapText (measure fontSize) text maxTextWidth).map
            (DrawOp.fillText textColor) }
  else
    none

theorem shrinkLoop_ge_30 (measureAt : Nat → Nat) (limit : Nat) :
    ∀ (fuel fontSize : Nat), 30 ≤ fontSize → fontSize % 5 = 0 →
      30 ≤ shrinkLoop measureAt limit fuel fontSize ∧
        shrinkLoop measureAt limit fuel fontSize % 5 = 0 := by
  intro fuel
  induction fuel with
  | zero => intro fontSize h30 h5; exact ⟨h30, h5⟩
  | succ fuel ih =>
    intro fontSize h30 h5
    simp only [shrinkLoop]
    split
    · rename_i hc
      exact ih (fontSize - 5) (by omega) (by omega)
    · exact ⟨h30, h5⟩

theorem shrinkLoop_stop (measureAt : Nat → Nat) (limit : Nat) :
    ∀ (fuel fontSize : Nat), fontSize ≤ 30 + 5 * fuel →
      measureAt (shrinkLoop measureAt limit fuel fontSize) ≤ limit ∨
        shrinkLoop measureAt limit fuel fontSize ≤ 30 := by
  intro fuel
  induction fuel with
  | zero => intro fontSize hle; right; simpa [shrinkLoop] using hle
  | succ fuel ih =>
    intro fontSize hle
    simp only [shrinkLoop]
    split
    · exact ih (fontSize - 5) (by omega)
    · rename_i hc
      rcases Nat.lt_or_ge limit (measureAt fontSize) with hm | hm
      · right
        by_contra h30
        exact hc ⟨hm, by omega⟩
      · exact Or.inl hm

theorem shrinkLoop_trace (measureAt : Nat → Nat) (limit : Nat) :
    ∀ (fuel fontSize : Nat), ∃ k,
      shrinkLoop measureAt limit fuel fontSize = fontSize - 5 * k ∧
        ∀ j < k, limit < measureAt (fontSize - 5 * j) ∧ 30 < fontSize - 5 * j := by
  intro fuel
  induction fuel with
  | zero =>
    intro fontSize
    exact ⟨0, by simp [shrinkLoop], by omega⟩
  | succ fuel ih =>
    intro fontSize
    simp only [shrinkLoop]
    split
    · rename_i hc
      obtain ⟨k, hk, hj⟩ := ih (fontSize - 5)
      refine ⟨k + 1, by omega, ?_⟩
      intro j hj'
      rcases j with _ | j
      · simpa using hc
      · have := hj j (by omega)
        constructor
        · have heq : fontSize - 5 - 5 * j = fontSize - 5 * (j + 1) := by omega
          rw [← heq]; exact this.1
        · omega
    · exact ⟨0, by simp, by omega⟩

theorem baseFontSize_bounds (tipo : TipoSlide) :
    30 ≤ baseFontSize tipo ∧ baseFontSize tipo % 5 = 0 := by
  cases tipo <;> simp [baseFontSize]

/-- C7: dynamic font-size fitting. The base font size is 90 for cover
(`capa`) slides and 70 for content and call-to-action slides — strictly
larger for cover; the shrink threshold is 2.5 times the 85%-of-canvas wrap
target (`918 * 2.5 = 2295`); the loop shrinks by steps of exactly 5 while the
unwrapped text's measured width exceeds the threshold (the trace conjunct);
it stops either because the text fits under the threshold or at the floor of
30, and the resulting font size is never below 30. The last conjunct ties
this to `renderSlideToBlob`, which uses exactly this fitted size. -/
theorem fontFitting_spec (measure : Nat → String → Nat) (text : String) (tipo : TipoSlide) :
    baseFontSize TipoSlide.capa = 90 ∧
    baseFontSize TipoSlide.conteudo = 70 ∧
    baseFontSize TipoSlide.cta = 70 ∧
    baseFontSize TipoSlide.conteudo < baseFontSize TipoSlide.capa ∧
    maxTextWidth = 918 ∧
    shrinkLimit = 2295 ∧
    30 ≤ fitFontSize measure text tipo ∧
    (measure (fitFontSize measure text tipo) text ≤ shrinkLimit ∨
      fitFontSize measure text tipo = 30) ∧
    (∃ k, fitFontSize measure text tipo = baseFontSize tipo - 5 * k ∧
      ∀ j < k, shrinkLimit < measure (baseFontSize tipo - 5 * j) text ∧
        30 < baseFontSize tipo - 5 * j) ∧
    (∀ catalog carousel language slide bgImage out,
      renderSlideToBlob measure catalog true slide carousel language bgImage = some out →
      out.fontSize = fitFontSize measure (displayText catalog carousel language slide)
        slide.tipo) := by
  have hb := baseFontSize_bounds tipo
  have hge := shrinkLoop_ge_30 (fun f => measure f text) shrinkLimit
    (baseFontSize tipo) (baseFontSize tipo) hb.1 hb.2
  refine ⟨rfl, rfl, rfl, by decide, rfl, rfl, hge.1, ?_, ?_, ?_⟩
  · have := shrinkLoop_stop (fun f => measure f text) shrinkLimit
      (baseFontSize tipo) (baseFontSize tipo) (by omega)
    rcases this with h | h
    · exact Or.inl h
    · exact Or.inr (le_antisymm h hge.1)
  · exact shrinkLoop_trace (fun f => measure f text) shrinkLimit
      (baseFontSize tipo) (baseFontSize tipo)
  · intro catalog carousel language slide bgImage out hout
    simp only [renderSlideToBlob, if_true, Option.some.injEq] at hout
    rw [← hout]

/-- Witness for C7: a measure that reports overflow above font size 60
shrinks a cover slide from 90 to exactly 60, and never below 30. -/
theorem fontFitting_spec_witness :
    (30 ≤ fitFontSize (fun f _ => if 60 < f then 9999 else 0) "Hello World" TipoSlide.capa) ∧
    fitFontSize (fun f _ => if 60 < f then 9999 else 0) "Hello World" TipoSlide.capa = 60 :=
  ⟨(fontFitting_spec (fun f _ => if 60 < f then 9999 else 0) "Hello World"
      TipoSlide.capa).2.2.2.2.2.2.1, by decide⟩

/-- C3: palette resolution. Substring matching against the dark
("Escuro"/"Dark"), vibrant ("Vibrante"/"Vibrant") and neutral
("Neutro"/"Neutral") markers, in the precedence order of the source, yields
the fixed palette pairs; the vibrant background paints as the two-stop
diagonal linear gradient between #4F46E5 and #9333EA, all other palettes
paint as a solid fill; a token matching no marker yields the fixed light
palette. -/
theorem getColorPalette_markers (token : String) :
    ((containsSub token "Escuro" || containsSub token "Dark") = true →
      getColorPalette token = { bg := "#1A1A1A", text := "#E0E0E0" } ∧
      backgroundOps (some token) none =
        [DrawOp.fillRect "#1A1A1A" 0 0 canvasSize canvasSize]) ∧
    ((containsSub token "Escuro" || containsSub token "Dark") = false →
      (containsSub token "Vibrante" || containsSub token "Vibrant") = true →
      getColorPalette token =
        { bg := "linear-gradient(135deg, #4F46E5, #9333EA)", text := "#FFFFFF" } ∧
      backgroundOps (some token) none =
        [DrawOp.fillGradientRect 0 0 canvasSize canvasSize "#4F46E5" "#9333EA"
          0 0 canvasSize canvasSize]) ∧
    ((containsSub token "Escuro" || containsSub token "Dark") = false →
      (containsSub token "Vibrante" || containsSub token "Vibrant") = false →
      (containsSub token "Neutro" || containsSub token "Neutral") = true →
      getColorPalette token = { bg := "#E5E7EB", text := "#111827" } ∧
      backgroundOps (some token) none =
        [DrawOp.fillRect "#E5E7EB" 0 0 canvasSize canvasSize]) ∧
    ((containsSub token "Escuro" || containsSub token "Dark") = false →
      (containsSub token "Vibrante" || containsSub token "Vibrant") = false →
      (containsSub token "Neutro" || containsSub token "Neutral") = false →
      getColorPalette token = { bg := "#F3EAD3", text := "#3A3A3A" } ∧
      backgroundOps (some token) none =
        [DrawOp.fillRect "#F3EAD3" 0 0 canvasSize canvasSize]) := by
  refine ⟨?_, ?_, ?_, ?_⟩
  · intro h1
    have hp : getColorPalette token = { bg := "#1A1A1A", text := "#E0E0E0" } := by
      simp [getColorPalette, h1]
    exact ⟨hp, by simp [backgroundOps, hp]⟩
  · intro h1 h2
    have hp : getColorPalette token =
        { bg := "linear-gradient(135deg, #4F46E5, #9333EA)", text := "#FFFFFF" } := by
      simp [getColorPalette, h1, h2]
    exact ⟨hp, by simp [backgroundOps, hp]⟩
  · intro h1 h2 h3
    have hp : getColorPalette token = { bg := "#E5E7EB", text := "#111827" } := by
      simp [getColorPalette, h1, h2, h3]
    exact ⟨hp, by simp [backgroundOps, hp]⟩
  · intro h1 h2 h3
    have hp : getColorPalette token = { bg := "#F3EAD3", text := "#3A3A3A" } := by
      simp [getColorPalette, h1, h2, h3]
    exact ⟨hp, by simp [backgroundOps, hp]⟩

/-- Witness for C3 at one concrete token per palette family. -/
theorem getColorPalette_markers_witness :
    getColorPalette "Fundo Escuro" = { bg := "#1A1A1A", text := "#E0E0E0" } ∧
    getColorPalette "Vibrante" =
      { bg := "linear-gradient(135deg, #4F46E5, #9333EA)", text := "#FFFFFF" } ∧
    backgroundOps (some "Vibrante") none =
      [DrawOp.fillGradientRect 0 0 canvasSize canvasSize "#4F46E5" "#9333EA"
        0 0 canvasSize canvasSize] ∧
    getColorPalette "Tons Neutros" = { bg := "#E5E7EB", text := "#111827" } ∧
    getColorPalette "Claro" = { bg := "#F3EAD3", text := "#3A3A3A" } :=
  ⟨((getColorPalette_markers "Fundo Escuro").1 (by decide)).1,
   ((getColorPalette_markers "Vibrante").2.1 (by decide) (by decide)).1,
   ((getColorPalette_markers "Vibrante").2.1 (by decide) (by decide)).2,
   ((getColorPalette_markers "Tons Neutros").2.2.1 (by decide) (by decide) (by decide)).1,
   ((getColorPalette_markers "Claro").2.2.2 (by decide) (by decide) (by decide)).1⟩

/-- C4: unmatched style tokens are normal input. `getFontDetails` returns the
fixed default triple (Montserrat, weight 700, no case transform) for every
typography token absent from the per-language catalog — in particular the
empty token — and `getColorPalette` returns the fixed light palette for every
token matching none of its markers; both are total functions, so neither can
raise an error. -/
theorem styleResolver_default_fallback :
    (∀ (catalog : Language → List FontOption) (lang : Language) (token : String),
      (catalog lang).find? (fun f => f.value == token) = none →
      getFontDetails catalog token lang = defaultFont) ∧
    (∀ token : String,
      (containsSub token "Escuro" || containsSub token "Dark") = false →
      (containsSub token "Vibrante" || containsSub token "Vibrant") = false →
      (containsSub token "Neutro" || containsSub token "Neutral") = false →
      getColorPalette token = { bg := "#F3EAD3", text := "#3A3A3A" }) := by
  constructor
  · intro catalog lang token hfind
    simp [getFontDetails, hfind]
  · intro token h1 h2 h3
    simp [getColorPalette, h1, h2, h3]

/-- Witness for C4: the empty typography token against an empty catalog, and
an unrecognized palette token. -/
theorem styleResolver_default_fallback_witness :
    getFontDetails (fun _ => []) "" Language.pt = defaultFont ∧
    getColorPalette "Minimalista" = { bg := "#F3EAD3", text := "#3A3A3A" } :=
  ⟨styleResolver_default_fallback.1 (fun _ => []) Language.pt "" rfl,
   styleResolver_default_fallback.2 "Minimalista" (by decide) (by decide) (by decide)⟩

/-- The cover slide of the determinism scenario of the spec (§8). -/
def scenarioSlide : Slide :=
  { ordem := 1, tipo := TipoSlide.capa, frase := "Hello World",
    instrucoes_layout := "", prompt_imagem := "" }

/-- The one-slide carousel `{id: "c1", slides: [{order: 1, kind: cover,
text: "Hello World"}]}` of the determinism scenario, with default (absent)
style tokens. -/
def scenarioCarousel : Carousel :=
  { id := "c1", slides := [scenarioSlide] }

theorem backgroundOps_ne_nil (paleta_cores : Option String) (bgImage : Option Image) :
    backgroundOps paleta_cores bgImage ≠ [] := by
  rcases bgImage with _ | img
  · simp only [backgroundOps]
    split <;> simp
  · simp [backgroundOps]

/-- C8: rasterization of the scenario carousel. With a 2D context available,
`renderSlideToBlob` on the scenario slide returns a blob (the encoded canvas
content) whose canvas is exactly 1080 by 1080 and whose drawing-operation
list is non-empty (so the encoded PNG is of a non-blank, fixed-size canvas);
and the function is deterministic: a second run with equal measure, catalog,
language and background image returns the identical blob. -/
theorem renderSlide_deterministic_scenario (measure : Nat → String → Nat)
    (catalog : Language → List FontOption) (language : Language)
    (bgImage : Option Image) :
    ∃ out : RenderOutput,
      renderSlideToBlob measure catalog true scenarioSlide scenarioCarousel language
          bgImage = some out ∧
      out.width = 1080 ∧ out.height = 1080 ∧ out.ops ≠ [] ∧
      ∀ (measure2 : Nat → String → Nat) (catalog2 : Language → List FontOption)
        (language2 : Language) (bgImage2 : Option Image),
        measure2 = measure → catalog2 = catalog → language2 = language →
        bgImage2 = bgImage →
        renderSlideToBlob measure2 catalog2 true scenarioSlide scenarioCarousel
          language2 bgImage2 = some out := by
  refine ⟨_, rfl, rfl, rfl, ?_, ?_⟩
  · intro hnil
    rcases List.append_eq_nil.1 hnil with ⟨hbg, _⟩
    exact backgroundOps_ne_nil scenarioCarousel.paleta_cores bgImage hbg
  · intro measure2 catalog2 language2 bgImage2 hm hc hl hb
    subst hm; subst hc; subst hl; subst hb
    rfl

/-- Witness for C8 at concrete measure, catalog, language and (absent)
background image. -/
theorem renderSlide_deterministic_scenario_witness :
    ∃ out : RenderOutput,
      renderSlideToBlob (fun _ _ => 0) (fun _ => []) true scenarioSlide
          scenarioCarousel Language.pt none = some out ∧
      out.width = 1080 ∧ out.height = 1080 ∧ out.ops ≠ [] ∧
      ∀ (measure2 : Nat → String → Nat) (catalog2 : Language → List FontOption)
        (language2 : Language) (bgImage2 : Option Image),
        measure2 = (fun _ _ => 0) → catalog2 = (fun _ => []) →
        language2 = Language.pt → bgImage2 = none →
        renderSlideToBlob measure2 catalog2 true scenarioSlide scenarioCarousel
          language2 bgImage2 = some out :=
  renderSlide_deterministic_scenario (fun _ _ => 0) (fun _ => []) Language.pt none

/-- Assignment `urls[k] = v` on the JavaScript object holding the generated
image URLs: any previous entry for `k` is overwritten. -/
def mapSet (m : List (Nat × String)) (k : Nat) (v : String) : List (Nat × String) :=
  m.filter (fun p => p.1 != k) ++ [(k, v)]

/-- The `results.forEach` accumulation of `CarouselPreview`'s fetch batch
(src/App.tsx:495-500): results are attributed to slides by index (the
`Promise.all` order), and only non-null results produce an entry, keyed by
the originating slide's `ordem`. -/
def buildImageMap (slides : List Slide) (results : List (Option String)) :
    List (Nat × String) :=
  (slides.zip results).foldl
    (fun m p =>
      match p.2 with
      | some url => mapSet m p.1.ordem url
      | none => m) []

/-- The photographic-background test of `CarouselPreview`'s effect
(src/App.tsx:489): `carousel.estilo_fundo?.includes('foto') ||
carousel.estilo_fundo?.includes('photo')`. -/
def isPhotoBg (c : Carousel) : Bool :=
  match c.estilo_fundo with
  | some s => containsSub s "foto" || containsSub s "photo"
  | none => false

/-- What one run of the orchestrator effect produces: the image-generation
requests issued (one prompt per request) and the resulting image map. -/
structure OrchestratorResult where
  requests : List String
  imageUrls : List (Nat × String)
deriving DecidableEq, Repr

/-- The orchestrator effect of `CarouselPreview` (src/App.tsx:488-506): for a
photographic background style it fans out one `generateImage` request per
slide (`gen` models the collaborator, which never throws and yields `none` on
failure) and builds the image map from the settled results; otherwise it
issues no request and the map stays empty. -/
def fetchImagesForCarousel (gen : String → Option String) (c : Carousel) :
    OrchestratorResult :=
  if isPhotoBg c then
    { requests := c.slides.map (fun s => s.prompt_imagem)
      imageUrls := buildImageMap c.slides (c.slides.map (fun s => gen s.prompt_imagem)) }
  else
    { requests := [], imageUrls := [] }

/-- The per-carousel preview state held by `CarouselPreview`
(src/App.tsx:482-486): the carousel currently shown (the component's prop)
plus the `imageUrls` and `isLoadingImages` state hooks. -/
structure PreviewComponentState where
  carousel : Carousel
  imageUrls : List (Nat × String)
  isLoadingImages : Bool
deriving DecidableEq, Repr

/-- The completion handler of the fetch batch (src/App.tsx:495-502): when
`Promise.all` settles it runs `setImageUrls(urls)` and
`setIsLoadingImages(false)`. The `urls` map is keyed by the slides of the
carousel captured when the batch started (`batchCarousel`); the handler
consults nothing else — in particular not the carousel currently shown. -/
def applyBatchCompletion (state : PreviewComponentState) (batchCarousel : Carousel)
    (results : List (Option String)) : PreviewComponentState :=
  { state with
    imageUrls := buildImageMap batchCarousel.slides results
    isLoadingImages := false }

/-- The background bitmap the exporter passes to the rasterizer for one slide
(src/App.tsx:517-528): the image-map entry for the slide's `ordem`, decoded;
a missing entry, or a decode failure (`img.onerror`), yields no background. -/
def bgFor (decodeImage : String → Option Image) (imageUrls : List (Nat × String))
    (slide : Slide) : Option Image :=
  match imageUrls.lookup slide.ordem with
  | some url => decodeImage url
  | none => none

/-- The archive entry name `slide_${slide.ordem}.png` (src/App.tsx:532). -/
def slideEntryName (slide : Slide) : String :=
  "slide_" ++ toString slide.ordem ++ ".png"

/-- The per-slide loop of `handleDownloadZip` (src/App.tsx:512-543), as the
list of named archive entries in the order `zip.file` adds them. `render`
stands for the call `renderSlideToBlob(slide, carousel, language, bgImage)`;
a slide whose render yields no blob adds no entry. -/
def handleDownloadZip (render : Slide → Option Image → Option RenderOutput)
    (decodeImage : String → Option Image) (imageUrls : List (Nat × String)) :
    List Slide → List (String × RenderOutput)
  | [] => []
  | slide :: rest =>
    match render slide (bgFor decodeImage imageUrls slide) with
    | some blob =>
      (slideEntryName slide, blob) :: handleDownloadZip render decodeImage imageUrls rest
    | none => handleDownloadZip render decodeImage imageUrls rest

theorem mem_mapSet {m : List (Nat × String)} {k o : Nat} {v u : String}
    (h : (o, u) ∈ mapSet m k v) : (o, u) ∈ m ∨ (o = k ∧ u = v) := by
  rcases List.mem_append.1 h with h | h
  · exact Or.inl (List.mem_filter.1 h).1
  · simp only [List.mem_singleton, Prod.mk.injEq] at h
    exact Or.inr h

theorem mem_buildAux (g : Slide → Option String) :
    ∀ (slides : List Slide) (acc : List (Nat × String)) {o : Nat} {u : String},
      (o, u) ∈ slides.foldl
        (fun m s =>
          match g s with
          | some url => mapSet m s.ordem url
          | none => m) acc →
      (o, u) ∈ acc ∨ ∃ s ∈ slides, s.ordem = o ∧ g s = some u := by
  intro slides
  induction slides with
  | nil => intro acc o u h; exact Or.inl h
  | cons a rest ih =>
    intro acc o u h
    simp only [List.foldl_cons] at h
    rcases ih _ h with h' | h'
    · cases hg : g a with
      | none => rw [hg] at h'; exact Or.inl h'
      | some url =>
        rw [hg] at h'
        rcases mem_mapSet h' with h'' | h''
        · exact Or.inl h''
        · exact Or.inr ⟨a, List.mem_cons_self a rest, h''.1.symm, by rw [hg, h''.2]⟩
    · obtain ⟨s, hs, ho, hgs⟩ := h'
      exact Or.inr ⟨s, List.mem_cons_of_mem a hs, ho, hgs⟩

theorem mem_buildImageMap {slides : List Slide} {g : Slide → Option String}
    {o : Nat} {u : String}
    (h : (o, u) ∈ buildImageMap slides (slides.map g)) :
    ∃ s ∈ slides, s.ordem = o ∧ g s = some u := by
  have hzip : slides.zip (slides.map g) = slides.map (fun s => (s, g s)) := by
    have := List.zip_map' (id : Slide → Slide) g slides
    simpa using this
  rw [buildImageMap, hzip, List.foldl_map] at h
  rcases mem_buildAux g slides [] h with h' | h'
  · simp at h'
  · exact h'

/-- C10: invariants of the orchestrator's image map. A non-photographic
background style issues no image-generation request and leaves the map empty;
every map entry comes from a slide that was requested (its `ordem` keys the
entry) and whose request settled with a non-null result (order-index
attribution); and in the two-slide scenario where one request settles null
and the other succeeds, exactly two requests are issued and the map holds
exactly one entry, keyed by the successful slide's order. -/
theorem orchestrator_imageMap_invariants (gen : String → Option String) (c : Carousel) :
    (isPhotoBg c = false →
      fetchImagesForCarousel gen c = { requests := [], imageUrls := [] }) ∧
    ((fetchImagesForCarousel gen c).requests.length =
      if isPhotoBg c then c.slides.length else 0) ∧
    (∀ (o : Nat) (u : String), (o, u) ∈ (fetchImagesForCarousel gen c).imageUrls →
      ∃ s ∈ c.slides, s.ordem = o ∧ gen s.prompt_imagem = some u) ∧
    (∀ (s1 s2 : Slide) (u : String), c.slides = [s1, s2] → isPhotoBg c = true →
      gen s1.prompt_imagem = none → gen s2.prompt_imagem = some u →
      (fetchImagesForCarousel gen c).requests.length = 2 ∧
      (fetchImagesForCarousel gen c).imageUrls = [(s2.ordem, u)]) := by
  refine ⟨?_, ?_, ?_, ?_⟩
  · intro h
    simp [fetchImagesForCarousel, h]
  · by_cases h : isPhotoBg c <;> simp [fetchImagesForCarousel, h]
  · intro o u hmem
    by_cases h : isPhotoBg c
    · simp only [fetchImagesForCarousel, h, if_true] at hmem
      exact mem_buildImageMap hmem
    · simp [fetchImagesForCarousel, h] at hmem
  · intro s1 s2 u hslides hphoto h1 h2
    constructor
    · simp [fetchImagesForCarousel, hphoto, hslides]
    · simp only [fetchImagesForCarousel, hphoto, if_true, hslides]
      simp [buildImageMap, h1, h2, mapSet]

/-- A non-photographic carousel for the C10 witness. -/
def flatCarousel : Carousel :=
  { id := "c2", estilo_fundo := some "Gradiente suave",
    slides := [{ ordem := 1, tipo := TipoSlide.capa, frase := "A",
                 instrucoes_layout := "", prompt_imagem := "p1" }] }

/-- First slide of the photographic C10 witness carousel. -/
def photoSlide1 : Slide :=
  { ordem := 1, tipo := TipoSlide.capa, frase := "A",
    instrucoes_layout := "", prompt_imagem := "p1" }

/-- Second slide of the photographic C10 witness carousel. -/
def photoSlide2 : Slide :=
  { ordem := 2, tipo := TipoSlide.conteudo, frase := "B",
    instrucoes_layout := "", prompt_imagem := "p2" }

/-- A photographic two-slide carousel for the C10 witness. -/
def photoCarousel : Carousel :=
  { id := "c3", estilo_fundo := some "Com foto",
    slides := [photoSlide1, photoSlide2] }

/-- Witness for C10: a concrete generator that fails on the first prompt and
succeeds on the second. -/
theorem orchestrator_imageMap_invariants_witness :
    fetchImagesForCarousel (fun p => if p = "p2" then some "u2" else none) flatCarousel =
      { requests := [], imageUrls := [] } ∧
    (fetchImagesForCarousel (fun p => if p = "p2" then some "u2" else none)
        photoCarousel).requests.length = 2 ∧
    (fetchImagesForCarousel (fun p => if p = "p2" then some "u2" else none)
        photoCarousel).imageUrls = [(2, "u2")] := by
  refine ⟨(orchestrator_imageMap_invariants _ flatCarousel).1 (by decide), ?_, ?_⟩
  · exact ((orchestrator_imageMap_invariants _ photoCarousel).2.2.2
      photoSlide1 photoSlide2 "u2" (by decide) (by decide) (by decide) (by decide)).1
  · exact ((orchestrator_imageMap_invariants _ photoCarousel).2.2.2
      photoSlide1 photoSlide2 "u2" (by decide) (by decide) (by decide) (by decide)).2

/-- The carousel an in-flight batch was started for (C2). -/
def staleBatchCarousel : Carousel :=
  { id := "cA", estilo_fundo := some "Com foto",
    slides := [{ ordem := 1, tipo := TipoSlide.capa, frase := "A",
                 instrucoes_layout := "", prompt_imagem := "pA" }] }

/-- A different carousel shown by the time that batch completes (C2). -/
def replacementCarousel : Carousel :=
  { id := "cB", estilo_fundo := some "Com foto",
    slides := [{ ordem := 7, tipo := TipoSlide.capa, frase := "B",
                 instrucoes_layout := "", prompt_imagem := "pB" }] }

/-- C2 (refuting the claimed guard): the batch completion handler performs no
apply-time identity check. Evaluated at the failing input — the shown
carousel is `cB` while the settling batch was started for `cA` — the handler
still installs the stale batch's results (keyed by `cA`'s slide orders) into
the state, instead of discarding them; moreover the handler's output never
depends on which carousel the component currently shows. -/
theorem staleBatch_applied_unconditionally :
    staleBatchCarousel ≠ replacementCarousel ∧
    (applyBatchCompletion
        { carousel := replacementCarousel, imageUrls := [], isLoadingImages := true }
        staleBatchCarousel [some "imgA"]).imageUrls = [(1, "imgA")] ∧
    (applyBatchCompletion
        { carousel := replacementCarousel, imageUrls := [], isLoadingImages := true }
        staleBatchCarousel [some "imgA"]).imageUrls ≠ [] ∧
    (∀ (st st' : PreviewComponentState) (bc : Carousel) (rs : List (Option String)),
      (applyBatchCompletion st bc rs).imageUrls = (applyBatchCompletion st' bc rs).imageUrls) := by
  refine ⟨by decide, by decide, by decide, ?_⟩
  intro st st' bc rs
  rfl

theorem handleDownloadZip_names (render : Slide → Option Image → Option RenderOutput)
    (decodeImage : String → Option Image) (imageUrls : List (Nat × String)) :
    ∀ slides : List Slide,
      (∀ s ∈ slides, (render s (bgFor decodeImage imageUrls s)).isSome = true) →
      (handleDownloadZip render decodeImage imageUrls slides).map Prod.fst =
        slides.map slideEntryName := by
  intro slides
  induction slides with
  | nil => intro _; rfl
  | cons a rest ih =>
    intro hsucc
    have ha := hsucc a (List.mem_cons_self a rest)
    obtain ⟨blob, hblob⟩ := Option.isSome_iff_exists.1 ha
    simp only [handleDownloadZip, hblob, List.map_cons]
    exact congrArg _ (ih fun s hs => hsucc s (List.mem_cons_of_mem a hs))

theorem handleDownloadZip_append (render : Slide → Option Image → Option RenderOutput)
    (decodeImage : String → Option Image) (imageUrls : List (Nat × String)) :
    ∀ l1 l2 : List Slide,
      handleDownloadZip render decodeImage imageUrls (l1 ++ l2) =
        handleDownloadZip render decodeImage imageUrls l1 ++
          handleDownloadZip render decodeImage imageUrls l2 := by
  intro l1
  induction l1 with
  | nil => intro l2; rfl
  | cons a rest ih =>
    intro l2
    simp only [List.cons_append, handleDownloadZip]
    cases render a (bgFor decodeImage imageUrls a) with
    | none => exact ih l2
    | some blob => simp [ih l2]

theorem handleDownloadZip_mem (render : Slide → Option Image → Option RenderOutput)
    (decodeImage : String → Option Image) (imageUrls : List (Nat × String)) :
    ∀ (slides : List Slide) (s : Slide) (blob : RenderOutput), s ∈ slides →
      render s (bgFor decodeImage imageUrls s) = some blob →
      (slideEntryName s, blob) ∈ handleDownloadZip render decodeImage imageUrls slides := by
  intro slides
  induction slides with
  | nil => intro s blob hs _; simp at hs
  | cons a rest ih =>
    intro s blob hs hsome
    rcases List.mem_cons.1 hs with rfl | hs'
    · simp only [handleDownloadZip, hsome]
      exact List.mem_cons_self _ _
    · simp only [handleDownloadZip]
      cases render a (bgFor decodeImage imageUrls a) with
      | none => exact ih s blob hs' hsome
      | some b => exact List.mem_cons_of_mem _ (ih s blob hs' hsome)

/-- C1 (amended): the Batch Exporter iterates the slides array in storage
order, not sorted by `order`. When every slide rasterizes, the archive
entries are named `slide_<order>.png` following the storage order of the
slides array; for N slides with distinct order values {1..N} in arbitrary
storage order the archive therefore holds exactly N entries whose names are a
permutation of slide_1.png … slide_N.png, and the names are added in
ascending order exactly when the array itself is stored in ascending order. -/
theorem downloadZip_entry_names (render : Slide → Option Image → Option RenderOutput)
    (decodeImage : String → Option Image) (imageUrls : List (Nat × String))
    (slides : List Slide) (N : Nat)
    (hsucc : ∀ s ∈ slides, (render s (bgFor decodeImage imageUrls s)).isSome = true) :
    (handleDownloadZip render decodeImage imageUrls slides).map Prod.fst =
      slides.map slideEntryName ∧
    ((slides.map Slide.ordem).Perm (List.range' 1 N) →
      ((handleDownloadZip render decodeImage imageUrls slides).map Prod.fst).Perm
        ((List.range' 1 N).map (fun i => "slide_" ++ toString i ++ ".png")) ∧
      (handleDownloadZip render decodeImage imageUrls slides).length = N) ∧
    (slides.map Slide.ordem = List.range' 1 N →
      (handleDownloadZip render decodeImage imageUrls slides).map Prod.fst =
        (List.range' 1 N).map (fun i => "slide_" ++ toString i ++ ".png")) := by
  have hnames := handleDownloadZip_names render decodeImage imageUrls slides hsucc
  have hcomp : slides.map slideEntryName =
      (slides.map Slide.ordem).map (fun i => "slide_" ++ toString i ++ ".png") := by
    rw [List.map_map]; rfl
  refine ⟨hnames, ?_, ?_⟩
  · intro hperm
    constructor
    · rw [hnames, hcomp]
      exact hperm.map _
    · have hlen : ((handleDownloadZip render decodeImage imageUrls slides).map
          Prod.fst).length = ((List.range' 1 N).map
            (fun i => "slide_" ++ toString i ++ ".png")).length := by
        rw [hnames, hcomp]
        exact (hperm.map _).length_eq
      simpa using hlen
  · intro hsorted
    rw [hnames, hcomp, hsorted]

/-- First (order-1) slide of the exporter examples. -/
def ceSlide1 : Slide :=
  { ordem := 1, tipo := TipoSlide.capa, frase := "A",
    instrucoes_layout := "", prompt_imagem := "" }

/-- Second (order-2) slide of the exporter examples. -/
def ceSlide2 : Slide :=
  { ordem := 2, tipo := TipoSlide.conteudo, frase := "B",
    instrucoes_layout := "", prompt_imagem := "" }

/-- A carousel storing its order-2 slide before its order-1 slide. -/
def ceCarousel : Carousel :=
  { id := "c1", slides := [ceSlide2, ceSlide1] }

/-- An always-available renderer for the exporter examples: the source's
`renderSlideToBlob(slide, carousel, language, bgImage)` call with a 2D
context present, a zero-width measure and an empty typography catalog. -/
def ceRender : Slide → Option Image → Option RenderOutput :=
  fun s bg => renderSlideToBlob (fun _ _ => 0) (fun _ => []) true s ceCarousel
    Language.pt bg

/-- C1 (as stated, refuted): for a carousel whose two slides carry the
distinct order values {1, 2} but are stored as [order 2, order 1], the
exporter adds slide_2.png before slide_1.png — it iterates the slides array
in storage order, not strictly in ascending order. -/
theorem downloadZip_not_ascending_counterexample :
    [ceSlide2, ceSlide1].map Slide.ordem = [2, 1] ∧
    (handleDownloadZip ceRender (fun _ => none) [] [ceSlide2, ceSlide1]).map Prod.fst =
      ["slide_2.png", "slide_1.png"] ∧
    (["slide_2.png", "slide_1.png"] : List String) ≠ ["slide_1.png", "slide_2.png"] := by
  refine ⟨by decide, by decide, by decide⟩

/-- Witness for the amended C1: the storage order [2, 1] yields the entry
names [slide_2.png, slide_1.png], a 2-element permutation of
slide_1.png … slide_2.png. -/
theorem downloadZip_entry_names_witness :
    (handleDownloadZip ceRender (fun _ => none) [] [ceSlide2, ceSlide1]).map Prod.fst =
      [ceSlide2, ceSlide1].map slideEntryName ∧
    ((handleDownloadZip ceRender (fun _ => none) [] [ceSlide2, ceSlide1]).map
        Prod.fst).Perm
      ((List.range' 1 2).map (fun i => "slide_" ++ toString i ++ ".png")) ∧
    (handleDownloadZip ceRender (fun _ => none) [] [ceSlide2, ceSlide1]).length = 2 := by
  have h := downloadZip_entry_names ceRender (fun _ => none) [] [ceSlide2, ceSlide1] 2
    (by decide)
  exact ⟨h.1, (h.2.1 (List.Perm.swap 1 2 [])).1, (h.2.1 (List.Perm.swap 1 2 [])).2⟩

/-- C9: a slide whose rasterization fails is skipped and never aborts its
siblings. If the renderer yields no blob for the slide `bad`, the archive of
`pre ++ bad :: post` is exactly the archive of `pre` followed by the archive
of `post`; and every slide whose rasterization succeeds still contributes its
`slide_<order>.png` entry to the archive. -/
theorem exporter_skips_failed_slide (render : Slide → Option Image → Option RenderOutput)
    (decodeImage : String → Option Image) (imageUrls : List (Nat × String))
    (pre post : List Slide) (bad : Slide)
    (hfail : render bad (bgFor decodeImage imageUrls bad) = none) :
    handleDownloadZip render decodeImage imageUrls (pre ++ bad :: post) =
      handleDownloadZip render decodeImage imageUrls pre ++
        handleDownloadZip render decodeImage imageUrls post ∧
    ∀ s ∈ pre ++ bad :: post, ∀ blob : RenderOutput,
      render s (bgFor decodeImage imageUrls s) = some blob →
      (slideEntryName s, blob) ∈
        handleDownloadZip render decodeImage imageUrls (pre ++ bad :: post) := by
  constructor
  · rw [handleDownloadZip_append]
    simp only [handleDownloadZip, hfail]
  · intro s hs blob hblob
    exact handleDownloadZip_mem render decodeImage imageUrls _ s blob hs hblob

/-- The failing middle slide of the C9 witness. -/
def badSlide : Slide :=
  { ordem := 99, tipo := TipoSlide.conteudo, frase := "X",
    instrucoes_layout := "", prompt_imagem := "" }

/-- A renderer whose 2D rendering surface is missing exactly for the order-99
slide (the promise then resolves null, src/App.tsx:431). -/
def failingRender : Slide → Option Image → Option RenderOutput :=
  fun s bg => renderSlideToBlob (fun _ _ => 0) (fun _ => []) (s.ordem != 99) s
    ceCarousel Language.pt bg

/-- Witness for C9: with the order-99 slide failing between the order-1 and
order-2 slides, the archive is the two siblings' archives concatenated. -/
theorem exporter_skips_failed_slide_witness :
    handleDownloadZip failingRender (fun _ => none) [] ([ceSlide1] ++ badSlide :: [ceSlide2]) =
      handleDownloadZip failingRender (fun _ => none) [] [ceSlide1] ++
        handleDownloadZip failingRender (fun _ => none) [] [ceSlide2] ∧
    ∀ s ∈ [ceSlide1] ++ badSlide :: [ceSlide2], ∀ blob : RenderOutput,
      failingRender s (bgFor (fun _ => none) [] s) = some blob →
      (slideEntryName s, blob) ∈
        handleDownloadZip failingRender (fun _ => none) [] ([ceSlide1] ++ badSlide :: [ceSlide2]) :=
  exporter_skips_failed_slide failingRender (fun _ => none) [] [ceSlide1] [ceSlide2]
    badSlide (by decide)

end App
